import Mathlib

/-!
Verification of the document-scan core of the `camera` repository.

The code under scrutiny is `processDocumentScan` and its helper `orderPoints`
(`src/unnamed/part_000`).  JavaScript numbers are modelled as exact rationals,
the OpenCV engine (`window.cv`) is modelled as a structure of oracle functions
each of which may throw (`Except Unit`), and the manually managed `Mat` buffers
are modelled by a list of live buffer names threaded through the pipeline.
-/

namespace DocScan

/-- A point in frame coordinates, as in the source's `interface Point`. -/
structure Point where
  x : ℚ
  y : ℚ
deriving DecidableEq, Repr

/-- Sort key of the first sort in `orderPoints`: the coordinate sum `x + y`. -/
def sumKey (p : Point) : ℚ := p.x + p.y

/-- Sort key of the second sort in `orderPoints`: the difference `y - x`. -/
def diffKey (p : Point) : ℚ := p.y - p.x

/-- The comparator `(a, b) => (a.x + a.y) - (b.x + b.y)` of the first
`Array.prototype.sort` call, as the associated total preorder. -/
def bySum (a b : Point) : Prop := sumKey a ≤ sumKey b

/-- The comparator `(a, b) => (a.y - a.x) - (b.y - b.x)` of the second
`Array.prototype.sort` call, as the associated total preorder. -/
def byDiff (a b : Point) : Prop := diffKey a ≤ diffKey b

instance : DecidableRel bySum := fun a b => inferInstanceAs (Decidable (sumKey a ≤ sumKey b))

instance : DecidableRel byDiff := fun a b => inferInstanceAs (Decidable (diffKey a ≤ diffKey b))

instance : IsTotal Point bySum := ⟨fun a b => le_total (sumKey a) (sumKey b)⟩

instance : IsTrans Point bySum := ⟨fun _ _ _ h1 h2 => le_trans h1 h2⟩

instance : IsTotal Point byDiff := ⟨fun a b => le_total (diffKey a) (diffKey b)⟩

instance : IsTrans Point byDiff := ⟨fun _ _ _ h1 h2 => le_trans h1 h2⟩

/-- Function `orderPoints` from `src/unnamed/part_000` lines 150-168.  `Array.prototype.sort`
with a consistent comparator is a stable sort (ES2019), which is exactly
`List.insertionSort` on the comparator's `≤` relation.  The out-of-range
indexing `sortedBySum[0] / [1] / [2] / [3]` can only occur for inputs of length
other than 4 (the code is only ever called with 4 points); `getD` supplies a
dummy for totality. -/
def orderPoints (points : List Point) : List Point :=
  let sortedBySum := List.insertionSort bySum points
  let tl := sortedBySum.getD 0 ⟨0, 0⟩
  let br := sortedBySum.getD 3 ⟨0, 0⟩
  let remaining := [sortedBySum.getD 1 ⟨0, 0⟩, sortedBySum.getD 2 ⟨0, 0⟩]
  let sortedByDiff := List.insertionSort byDiff remaining
  let tr := sortedByDiff.getD 0 ⟨0, 0⟩
  let bl := sortedByDiff.getD 1 ⟨0, 0⟩
  [tl, tr, br, bl]

/-- Cross product of the vectors `o → p` and `o → q`; used only to state the
"the four points form a convex quadrilateral" hypothesis of the spec. -/
def cross (o p q : Point) : ℚ :=
  (p.x - o.x) * (q.y - o.y) - (p.y - o.y) * (q.x - o.x)

/-- The spec's "4 points forming a convex quadrilateral" (glossary: a 4-vertex
polygon whose interior angles are all < 180°): consecutive edge cross products
all have the same strict sign. -/
def convexQuad (a b c d : Point) : Prop :=
  (0 < cross a b c ∧ 0 < cross b c d ∧ 0 < cross c d a ∧ 0 < cross d a b) ∨
  (cross a b c < 0 ∧ cross b c d < 0 ∧ cross c d a < 0 ∧ cross d a b < 0)

instance (a b c d : Point) : Decidable (convexQuad a b c d) :=
  inferInstanceAs (Decidable (_ ∨ _))

/-- Characterisation of `orderPoints` on a list of four points: writing
`[s0, s1, s2, s3]` for the stable sort of the input by coordinate sum, the
result is `[s0, s1, s3, s2]` or `[s0, s2, s3, s1]` according to the
difference comparison of the middle pair. -/
theorem orderPoints_core (ps : List Point) (h : ps.length = 4) :
    ∃ s0 s1 s2 s3, List.insertionSort bySum ps = [s0, s1, s2, s3] ∧
      List.Perm [s0, s1, s2, s3] ps ∧
      bySum s0 s1 ∧ bySum s1 s2 ∧ bySum s2 s3 ∧
      orderPoints ps = (if byDiff s1 s2 then [s0, s1, s3, s2] else [s0, s2, s3, s1]) := by
  have hperm := List.perm_insertionSort bySum ps
  have hsort := List.sorted_insertionSort bySum ps
  obtain ⟨s0, s1, s2, s3, hs⟩ : ∃ a b c d, List.insertionSort bySum ps = [a, b, c, d] := by
    have hlen : (List.insertionSort bySum ps).length = 4 := hperm.length_eq.trans h
    rcases hI : List.insertionSort bySum ps with _ | ⟨a, _ | ⟨b, _ | ⟨c, _ | ⟨d, _ | ⟨e1, t⟩⟩⟩⟩⟩ <;>
      rw [hI] at hlen <;> simp at hlen
    exact ⟨a, b, c, d, rfl⟩
  rw [hs] at hsort
  obtain ⟨h0, hsort1⟩ := List.sorted_cons.mp hsort
  obtain ⟨h1, hsort2⟩ := List.sorted_cons.mp hsort1
  obtain ⟨h2, -⟩ := List.sorted_cons.mp hsort2
  refine ⟨s0, s1, s2, s3, hs, hs ▸ hperm, h0 s1 (by simp), h1 s2 (by simp),
    h2 s3 (by simp), ?_⟩
  unfold orderPoints
  rw [hs]
  by_cases h12 : byDiff s1 s2 <;>
    simp [List.insertionSort, List.orderedInsert, h12, List.getD]

/-- Swapping the two middle elements of a four-element list is a permutation. -/
theorem quad_perm_swap (s0 s1 s2 s3 : Point) :
    List.Perm [s0, s1, s3, s2] [s0, s1, s2, s3] :=
  List.Perm.cons s0 (List.Perm.cons s1 (List.Perm.swap s2 s3 []))

/-- Rotating the last three elements of a four-element list is a permutation. -/
theorem quad_perm_rot (s0 s1 s2 s3 : Point) :
    List.Perm [s0, s2, s3, s1] [s0, s1, s2, s3] :=
  List.Perm.cons s0 (@List.perm_append_comm _ [s2, s3] [s1])

/-- C1: for every list of exactly 4 points, `orderPoints` returns a labeling
`[TopLeft, TopRight, BottomRight, BottomLeft]` drawn from the input points
(a permutation of the input), where `TopLeft` minimises the coordinate sum
`x + y` over the input, `BottomRight` maximises it, and `TopRight` has a
difference `y - x` no larger than `BottomLeft`'s. -/
theorem orderPoints_labeling (ps : List Point) (h : ps.length = 4) :
    ∃ tl tr br bl, orderPoints ps = [tl, tr, br, bl] ∧
      List.Perm [tl, tr, br, bl] ps ∧
      (∀ p ∈ ps, sumKey tl ≤ sumKey p) ∧
      (∀ p ∈ ps, sumKey p ≤ sumKey br) ∧
      diffKey tr ≤ diffKey bl := by
  obtain ⟨s0, s1, s2, s3, hs, hperm, h01, h12, h23, hord⟩ := orderPoints_core ps h
  have h01' : sumKey s0 ≤ sumKey s1 := h01
  have h12' : sumKey s1 ≤ sumKey s2 := h12
  have h23' : sumKey s2 ≤ sumKey s3 := h23
  have hmem : ∀ p ∈ ps, p = s0 ∨ p = s1 ∨ p = s2 ∨ p = s3 := by
    intro p hp
    have hp' : p ∈ [s0, s1, s2, s3] := hperm.mem_iff.mpr hp
    simpa using hp'
  have hlow : ∀ p ∈ ps, sumKey s0 ≤ sumKey p := by
    intro p hp
    rcases hmem p hp with rfl | rfl | rfl | rfl
    · exact le_refl _
    · exact h01'
    · exact le_trans h01' h12'
    · exact le_trans h01' (le_trans h12' h23')
  have hhigh : ∀ p ∈ ps, sumKey p ≤ sumKey s3 := by
    intro p hp
    rcases hmem p hp with rfl | rfl | rfl | rfl
    · exact le_trans h01' (le_trans h12' h23')
    · exact le_trans h12' h23'
    · exact h23'
    · exact le_refl _
  by_cases hd : byDiff s1 s2
  · exact ⟨s0, s1, s3, s2, by rw [hord, if_pos hd],
      (quad_perm_swap s0 s1 s2 s3).trans hperm, hlow, hhigh, hd⟩
  · exact ⟨s0, s2, s3, s1, by rw [hord, if_neg hd],
      (quad_perm_rot s0 s1 s2 s3).trans hperm, hlow, hhigh,
      le_of_not_le hd⟩

/-- Witness for C1 at the corners of an axis-aligned rectangle. -/
theorem orderPoints_labeling_witness :
    ∃ tl tr br bl,
      orderPoints [⟨0, 0⟩, ⟨4, 0⟩, ⟨4, 3⟩, ⟨0, 3⟩] = [tl, tr, br, bl] ∧
      List.Perm [tl, tr, br, bl] [⟨0, 0⟩, ⟨4, 0⟩, ⟨4, 3⟩, ⟨0, 3⟩] ∧
      (∀ p ∈ [(⟨0, 0⟩ : Point), ⟨4, 0⟩, ⟨4, 3⟩, ⟨0, 3⟩], sumKey tl ≤ sumKey p) ∧
      (∀ p ∈ [(⟨0, 0⟩ : Point), ⟨4, 0⟩, ⟨4, 3⟩, ⟨0, 3⟩], sumKey p ≤ sumKey br) ∧
      diffKey tr ≤ diffKey bl :=
  orderPoints_labeling [⟨0, 0⟩, ⟨4, 0⟩, ⟨4, 3⟩, ⟨0, 3⟩] rfl

/-- C10: for every list of exactly 4 points, the list returned by `orderPoints`
is a permutation of the input: no point is duplicated or dropped, even in the
presence of ties in the coordinate sums or differences. -/
theorem orderPoints_is_perm (ps : List Point) (h : ps.length = 4) :
    (orderPoints ps).Perm ps := by
  obtain ⟨s0, s1, s2, s3, hs, hperm, -, -, -, hord⟩ := orderPoints_core ps h
  rw [hord]
  by_cases hd : byDiff s1 s2
  · rw [if_pos hd]
    exact (quad_perm_swap s0 s1 s2 s3).trans hperm
  · rw [if_neg hd]
    exact (quad_perm_rot s0 s1 s2 s3).trans hperm

/-- Witness for C10 on an input with tied coordinate sums. -/
theorem orderPoints_is_perm_witness :
    (orderPoints [⟨2, 0⟩, ⟨0, 2⟩, ⟨1, 1⟩, ⟨3, 3⟩]).Perm [⟨2, 0⟩, ⟨0, 2⟩, ⟨1, 1⟩, ⟨3, 3⟩] :=
  orderPoints_is_perm [⟨2, 0⟩, ⟨0, 2⟩, ⟨1, 1⟩, ⟨3, 3⟩] rfl

/-- Under pairwise-distinct coordinate sums, the stable sort by coordinate sum
is determined by the multiset of points alone. -/
theorem insertionSort_bySum_eq (ps qs : List Point) (hperm : ps.Perm qs)
    (hdist : ps.Pairwise (fun p q => sumKey p ≠ sumKey q)) :
    List.insertionSort bySum ps = List.insertionSort bySum qs := by
  have hsymm : Symmetric (fun p q : Point => sumKey p ≠ sumKey q) :=
    fun _ _ hab => Ne.symm hab
  have hps := List.perm_insertionSort bySum ps
  have hqs := List.perm_insertionSort bySum qs
  have hdq : qs.Pairwise (fun p q => sumKey p ≠ sumKey q) :=
    (hperm.pairwise_iff (fun hr => hsymm hr)).mp hdist
  have hdps : (List.insertionSort bySum ps).Pairwise (fun p q => sumKey p ≠ sumKey q) :=
    (hps.pairwise_iff (fun hr => hsymm hr)).mpr hdist
  have hdqs : (List.insertionSort bySum qs).Pairwise (fun p q => sumKey p ≠ sumKey q) :=
    (hqs.pairwise_iff (fun hr => hsymm hr)).mpr hdq
  have hstrictp : List.Sorted (fun a b => sumKey a < sumKey b) (List.insertionSort bySum ps) :=
    ((List.sorted_insertionSort bySum ps).and hdps).imp
      (fun hab => lt_of_le_of_ne hab.1 hab.2)
  have hstrictq : List.Sorted (fun a b => sumKey a < sumKey b) (List.insertionSort bySum qs) :=
    ((List.sorted_insertionSort bySum qs).and hdqs).imp
      (fun hab => lt_of_le_of_ne hab.1 hab.2)
  haveI : IsAntisymm Point (fun a b => sumKey a < sumKey b) :=
    ⟨fun _ _ h1 h2 => absurd h2 (not_lt.mpr h1.le)⟩
  exact List.eq_of_perm_of_sorted (hps.trans (hperm.trans hqs.symm)) hstrictp hstrictq

/-- C2 (amended): for 4 points forming a convex quadrilateral whose coordinate
sums `x + y` are pairwise distinct, `orderPoints` returns the same labeling for
every presentation order of the 4 points — in particular for every cyclic
rotation and for the reversed order. -/
theorem orderPoints_order_invariant (a b c d : Point) (ps qs : List Point)
    (_hconv : convexQuad a b c d)
    (hdist : List.Pairwise (fun p q => sumKey p ≠ sumKey q) [a, b, c, d])
    (hps : ps.Perm [a, b, c, d]) (hqs : qs.Perm [a, b, c, d]) :
    orderPoints ps = orderPoints qs := by
  have hsymm : Symmetric (fun p q : Point => sumKey p ≠ sumKey q) :=
    fun _ _ hab => Ne.symm hab
  have hlp : ps.length = 4 := by rw [hps.length_eq]; rfl
  have hlq : qs.length = 4 := by rw [hqs.length_eq]; rfl
  have hdp : ps.Pairwise (fun p q => sumKey p ≠ sumKey q) :=
    (hps.pairwise_iff (fun hr => hsymm hr)).mpr hdist
  have hsort_eq := insertionSort_bySum_eq ps qs (hps.trans hqs.symm) hdp
  obtain ⟨s0, s1, s2, s3, hsp, -, -, -, -, hordp⟩ := orderPoints_core ps hlp
  obtain ⟨t0, t1, t2, t3, hsq, -, -, -, -, hordq⟩ := orderPoints_core qs hlq
  have heq : ([s0, s1, s2, s3] : List Point) = [t0, t1, t2, t3] := by
    rw [← hsp, ← hsq, hsort_eq]
  obtain ⟨e0, e1, e2, e3⟩ : s0 = t0 ∧ s1 = t1 ∧ s2 = t2 ∧ s3 = t3 := by
    simpa using heq
  subst e0; subst e1; subst e2; subst e3
  rw [hordp, hordq]

/-- Counterexample to C2 as stated: these four points form a convex
quadrilateral (two of them tie in coordinate sum, i.e. the quadrilateral is
rotated 45°), and a cyclic rotation of the input list changes the labeling
returned by `orderPoints`. -/
theorem orderPoints_rotation_counterexample :
    convexQuad ⟨0, 1⟩ ⟨1, 0⟩ ⟨3, 1⟩ ⟨1, 3⟩ ∧
    List.Perm [⟨1, 0⟩, ⟨3, 1⟩, ⟨1, 3⟩, ⟨0, 1⟩] [(⟨0, 1⟩ : Point), ⟨1, 0⟩, ⟨3, 1⟩, ⟨1, 3⟩] ∧
    orderPoints [⟨1, 0⟩, ⟨3, 1⟩, ⟨1, 3⟩, ⟨0, 1⟩] ≠
      orderPoints [⟨0, 1⟩, ⟨1, 0⟩, ⟨3, 1⟩, ⟨1, 3⟩] := by
  refine ⟨by norm_num [convexQuad, cross], ?_, ?_⟩
  · exact @List.perm_append_comm Point [⟨1, 0⟩, ⟨3, 1⟩, ⟨1, 3⟩] [⟨0, 1⟩]
  · have e1 : orderPoints [⟨1, 0⟩, ⟨3, 1⟩, ⟨1, 3⟩, ⟨0, 1⟩] =
        [⟨1, 0⟩, ⟨3, 1⟩, ⟨1, 3⟩, ⟨0, 1⟩] := by
      norm_num [orderPoints, bySum, byDiff, sumKey, diffKey, List.getD]
    have e2 : orderPoints [⟨0, 1⟩, ⟨1, 0⟩, ⟨3, 1⟩, ⟨1, 3⟩] =
        [⟨0, 1⟩, ⟨3, 1⟩, ⟨1, 3⟩, ⟨1, 0⟩] := by
      norm_num [orderPoints, bySum, byDiff, sumKey, diffKey, List.getD]
    rw [e1, e2]
    norm_num [Point.mk.injEq]

/-- Witness for the amended C2: a convex quadrilateral with pairwise-distinct
coordinate sums, presented rotated and reversed, yields the same labeling. -/
theorem orderPoints_order_invariant_witness :
    orderPoints [⟨5, 1⟩, ⟨6, 7⟩, ⟨1, 6⟩, ⟨0, 0⟩] =
      orderPoints [⟨1, 6⟩, ⟨6, 7⟩, ⟨5, 1⟩, ⟨0, 0⟩] :=
  orderPoints_order_invariant ⟨0, 0⟩ ⟨5, 1⟩ ⟨6, 7⟩ ⟨1, 6⟩
    [⟨5, 1⟩, ⟨6, 7⟩, ⟨1, 6⟩, ⟨0, 0⟩] [⟨1, 6⟩, ⟨6, 7⟩, ⟨5, 1⟩, ⟨0, 0⟩]
    (by norm_num [convexQuad, cross])
    (by norm_num [List.pairwise_cons, sumKey, Point.mk.injEq])
    (@List.perm_append_comm Point [⟨5, 1⟩, ⟨6, 7⟩, ⟨1, 6⟩] [⟨0, 0⟩])
    (by simpa using (List.reverse_perm [(⟨0, 0⟩ : Point), ⟨5, 1⟩, ⟨6, 7⟩, ⟨1, 6⟩]))

/-! ## The processing pipeline (`processDocumentScan`, `src/unnamed/part_000` lines 12-147)

An image (`cv.Mat` content, or the canvas raster) is modelled as its pixel
dimensions plus an abstract content tag.  The OpenCV engine is a structure of
oracle functions: each of its operations is outside this repository and may
throw, modelled by `Except Unit`.  The manually managed buffers are tracked by
name in a live-buffer list: `new`/`matFromArray`/`getPerspectiveTransform`
prepend a name, `.delete()` erases it. -/

/-- A raster image: pixel dimensions plus an abstract content tag. -/
structure Img where
  rows : ℕ
  cols : ℕ
  data : ℕ
deriving DecidableEq, Repr

/-- The named intermediate buffers allocated by `processDocumentScan`. -/
inductive Buf
  | src | dst | smallSrc | gray | blurred | edges | contours | hierarchy
  | srcTri | dstTri | M
deriving DecidableEq, Repr

/-- Mutable state of a call: the canvas raster and the live (allocated,
not yet deleted) buffers. -/
structure St where
  canvas : Img
  live : List Buf
deriving DecidableEq, Repr

/-- A contour as returned by `cv.findContours`: its `cv.contourArea`, its
`cv.arcLength` perimeter, and the oracle `cv.approxPolyDP` giving the polygon
approximation at a chosen epsilon. -/
structure Contour where
  area : ℚ
  peri : ℚ
  approxAt : ℚ → List Point

/-- The external image-processing engine (`window.cv` plus `Math.hypot`).
Every operation is an oracle that may throw. -/
structure Engine where
  resizeArea : Img → ℚ → ℚ → Except Unit Img
  cvtColorGray : Img → Except Unit Img
  gaussianBlur : Img → Except Unit Img
  canny : Img → Except Unit Img
  findContours : Img → Except Unit (List Contour)
  isContourConvex : List Point → Bool
  mathHypot : ℚ → ℚ → ℚ
  getPerspectiveTransform : List ℚ → List ℚ → Except Unit Img
  warpPerspective : Img → Img → ℚ → ℚ → Except Unit Img
  toDataURL : Img → Except Unit String

/-- Quotient `maxDim / n` for `maxDim = 800`: JavaScript division by zero yields
`Infinity`, modelled as `none`. -/
def jsDivMaxDim (n : ℕ) : Option ℚ :=
  if n = 0 then none else some (800 / (n : ℚ))

/-- Line 30, `const scale = Math.min(maxDim / src.rows, maxDim / src.cols, 1)`
(line 30); `Math.min` with `Infinity` arguments returns the other argument. -/
def scaleOf (rows cols : ℕ) : ℚ :=
  match jsDivMaxDim rows, jsDivMaxDim cols with
  | none, none => 1
  | none, some q => min q 1
  | some q, none => min q 1
  | some q, some q' => min (min q q') 1

/-- Lines 88-91: map each detected corner back to original-frame space by
dividing its coordinates by the scale factor. -/
def rescalePoints (scale : ℚ) (ps : List Point) : List Point :=
  ps.map fun p => ⟨p.x / scale, p.y / scale⟩

/-- One iteration of the contour loop (lines 57-83) acting on the accumulator
`(maxArea, maxContourData)`.  `approx.rows === 4` guarantees the extracted
point list is the 4-point approximation itself. -/
def codeStep (isConvex : List Point → Bool) (acc : ℚ × Option (List Point))
    (c : Contour) : ℚ × Option (List Point) :=
  if c.area < 5000 then acc
  else
    let approx := c.approxAt (0.02 * c.peri)
    if approx.length = 4 ∧ isConvex approx = true then
      if c.area > acc.1 then (c.area, some approx) else acc
    else acc

/-- The contour loop of lines 53-83: starting from `maxArea = 0`,
`maxContourData = null`. -/
def findMaxQuad (isConvex : List Point → Bool) (contours : List Contour) :
    Option (List Point) :=
  (contours.foldl (codeStep isConvex) (0, none)).2

/-- Lines 32-37: resize to `dsize = (cols * scale, rows * scale)` when
`scale < 1`, else `src.copyTo(smallSrc)`. -/
def smallStep (e : Engine) (src : Img) : Except Unit Img :=
  if scaleOf src.rows src.cols < 1 then
    e.resizeArea src ((src.cols : ℚ) * scaleOf src.rows src.cols)
      ((src.rows : ℚ) * scaleOf src.rows src.cols)
  else .ok src

/-- Lines 136-139: delete the eight always-allocated buffers. -/
def freeCommon (live : List Buf) : List Buf :=
  (((((((live.erase Buf.src).erase Buf.dst).erase Buf.smallSrc).erase
    Buf.gray).erase Buf.blurred).erase Buf.edges).erase Buf.contours).erase
    Buf.hierarchy

/-- Lines 136-141: common cleanup, then `canvas.toDataURL('image/jpeg', 0.9)`
on the (already repainted) canvas. -/
def finishUp (e : Engine) (canvasNow : Img) (live : List Buf) :
    Except Unit String × St :=
  let live' := freeCommon live
  match e.toDataURL canvasNow with
  | .ok s => (.ok s, ⟨canvasNow, live'⟩)
  | .error u => (.error u, ⟨canvasNow, live'⟩)

/-- The body of the `try` block of `processDocumentScan` (lines 22-141).
The second component of the result is the state (canvas content and live
buffers) at normal return or at the point the exception escaped. -/
def tryBody (e : Engine) (canvas : Img) : Except Unit String × St :=
  let src := canvas
  let live0 : List Buf := [Buf.smallSrc, Buf.dst, Buf.src]
  let scale := scaleOf src.rows src.cols
  match smallStep e src with
  | .error u => (.error u, ⟨canvas, live0⟩)
  | .ok smallSrc =>
    let live1 := Buf.edges :: Buf.blurred :: Buf.gray :: live0
    match e.cvtColorGray smallSrc with
    | .error u => (.error u, ⟨canvas, live1⟩)
    | .ok gray =>
      match e.gaussianBlur gray with
      | .error u => (.error u, ⟨canvas, live1⟩)
      | .ok blurred =>
        match e.canny blurred with
        | .error u => (.error u, ⟨canvas, live1⟩)
        | .ok edges =>
          let live2 := Buf.hierarchy :: Buf.contours :: live1
          match e.findContours edges with
          | .error u => (.error u, ⟨canvas, live2⟩)
          | .ok contours =>
            match findMaxQuad e.isContourConvex contours with
            | some pts =>
              let points := rescalePoints scale pts
              match orderPoints points with
              | [tl, tr, br, bl] =>
                let widthA := e.mathHypot (br.x - bl.x) (br.y - bl.y)
                let widthB := e.mathHypot (tr.x - tl.x) (tr.y - tl.y)
                let maxWidth := max widthA widthB
                let heightA := e.mathHypot (tr.x - br.x) (tr.y - br.y)
                let heightB := e.mathHypot (tl.x - bl.x) (tl.y - bl.y)
                let maxHeight := max heightA heightB
                let live3 := Buf.dstTri :: Buf.srcTri :: live2
                match e.getPerspectiveTransform
                    [tl.x, tl.y, tr.x, tr.y, br.x, br.y, bl.x, bl.y]
                    [0, 0, maxWidth, 0, maxWidth, maxHeight, 0, maxHeight] with
                | .error u => (.error u, ⟨canvas, live3⟩)
                | .ok m =>
                  let live4 := Buf.M :: live3
                  match e.warpPerspective src m maxWidth maxHeight with
                  | .error u => (.error u, ⟨canvas, live4⟩)
                  | .ok warped =>
                    let live5 := ((live4.erase Buf.srcTri).erase Buf.dstTri).erase Buf.M
                    finishUp e warped live5
              | _ => (.error (), ⟨canvas, live2⟩)
            | none =>
              finishUp e src live2

/-- Function `processDocumentScan` (lines 12-147): the availability check on
`window.cv` / `cv.Mat`, the `try` body, and the `catch` handler converting any
exception into a `null` result. -/
def processDocumentScan (e : Engine) (cvLoaded : Bool) (canvas : Img) :
    Option String × St :=
  if cvLoaded then
    match tryBody e canvas with
    | (.ok s, st) => (some s, st)
    | (.error _, st) => (none, st)
  else (none, ⟨canvas, []⟩)

/-! ## C4: quadrilateral filtering and selection -/

/-- Modelled from the spec's filtering words: a contour is retained when its
raw area is at least 5000 and its polygon approximation at epsilon = 2% of the
perimeter has exactly 4 vertices and is convex. -/
def acceptedQuad (isConvex : List Point → Bool) (c : Contour) : Prop :=
  5000 ≤ c.area ∧ (c.approxAt (0.02 * c.peri)).length = 4 ∧
    isConvex (c.approxAt (0.02 * c.peri)) = true

instance (isConvex : List Point → Bool) (c : Contour) :
    Decidable (acceptedQuad isConvex c) :=
  inferInstanceAs (Decidable (_ ∧ _))

/-- Modelled from the spec's selection words: keep the candidate with the
larger raw area, first-encountered winning ties (strictly-greater test). -/
def specStep : Option Contour → Contour → Option Contour
  | none, c => some c
  | some b, c => if c.area > b.area then some c else some b

/-- Modelled from the spec's words: filter the retained candidates, then pick
the largest-area one, first-encountered on ties. -/
def specSelect (isConvex : List Point → Bool) (cs : List Contour) :
    Option (List Point) :=
  ((cs.filter fun c => decide (acceptedQuad isConvex c)).foldl specStep none).map
    fun c => c.approxAt (0.02 * c.peri)

/-- The loop accumulator corresponding to a current best candidate. -/
def encodeBest : Option Contour → ℚ × Option (List Point)
  | none => (0, none)
  | some c => (c.area, some (c.approxAt (0.02 * c.peri)))

/-- Loop invariant: the source's single-pass fold computes the same state as
filtering then selecting the largest. -/
theorem foldl_codeStep_eq (isConvex : List Point → Bool) (cs : List Contour)
    (b : Option Contour) :
    cs.foldl (codeStep isConvex) (encodeBest b) =
      encodeBest ((cs.filter fun c => decide (acceptedQuad isConvex c)).foldl
        specStep b) := by
  induction cs generalizing b with
  | nil => rfl
  | cons c cs ih =>
    simp only [List.foldl_cons, List.filter_cons]
    by_cases h5 : c.area < 5000
    · have hacc : decide (acceptedQuad isConvex c) = false := by
        simp [acceptedQuad]
        intro h
        exact absurd h5 (not_lt.mpr h)
      have hstep : codeStep isConvex (encodeBest b) c = encodeBest b := by
        unfold codeStep
        rw [if_pos h5]
      rw [hacc, hstep]
      simpa using ih b
    · have hge : 5000 ≤ c.area := not_lt.mp h5
      by_cases hq : (c.approxAt (0.02 * c.peri)).length = 4 ∧
          isConvex (c.approxAt (0.02 * c.peri)) = true
      · have hacc : decide (acceptedQuad isConvex c) = true := by
          simp [acceptedQuad, hge, hq.1, hq.2]
        rw [hacc, if_pos rfl]
        simp only [List.foldl_cons]
        cases b with
        | none =>
          have hpos : (0 : ℚ) < c.area := lt_of_lt_of_le (by norm_num) hge
          have hstep : codeStep isConvex (encodeBest none) c = encodeBest (some c) := by
            simp [codeStep, encodeBest, h5, hq.1, hq.2, hpos]
          have hsp : specStep none c = some c := by
            simp [specStep]
          rw [hstep, hsp]
          exact ih (some c)
        | some b0 =>
          by_cases harea : c.area > b0.area
          · have hstep : codeStep isConvex (encodeBest (some b0)) c =
                encodeBest (some c) := by
              simp [codeStep, encodeBest, h5, hq.1, hq.2, harea]
            have hsp : specStep (some b0) c = some c := by
              simp [specStep, harea]
            rw [hstep, hsp]
            exact ih (some c)
          · have hstep : codeStep isConvex (encodeBest (some b0)) c =
                encodeBest (some b0) := by
              simp [codeStep, encodeBest, h5, hq.1, hq.2, harea]
            have hsp : specStep (some b0) c = some b0 := by
              simp [specStep, harea]
            rw [hstep, hsp]
            exact ih (some b0)
      · have hacc : decide (acceptedQuad isConvex c) = false := by
          simp only [acceptedQuad, decide_eq_false_iff_not]
          intro h
          exact hq ⟨h.2.1, h.2.2⟩
        have hstep : codeStep isConvex (encodeBest b) c = encodeBest b := by
          unfold codeStep
          rw [if_neg h5, if_neg hq]
        rw [hacc, hstep]
        simpa using ih b

/-- C4: the contour loop retains exactly the contours of raw area at least
5000 whose 2%-epsilon polygon approximation has exactly 4 vertices and is
convex, and among those returns the approximation of the one with the largest
raw area, first-encountered winning ties. -/
theorem findMaxQuad_spec (isConvex : List Point → Bool) (cs : List Contour) :
    findMaxQuad isConvex cs = specSelect isConvex cs := by
  unfold findMaxQuad specSelect
  have h := foldl_codeStep_eq isConvex cs none
  have h0 : ((0 : ℚ), (none : Option (List Point))) = encodeBest none := rfl
  rw [h0, h]
  cases (cs.filter fun c => decide (acceptedQuad isConvex c)).foldl specStep none with
  | none => rfl
  | some c => rfl

/-! ## C6: detection scale factor and corner rescaling -/

/-- Value `min (800 / n) 1` is `800 / n` exactly when `n` exceeds 800. -/
theorem min_divCap_one (n : ℕ) (hn : 0 < n) :
    min ((800 : ℚ) / (n : ℚ)) 1 = if 800 < n then (800 : ℚ) / (n : ℚ) else 1 := by
  have hn' : (0 : ℚ) < (n : ℚ) := by exact_mod_cast hn
  rcases lt_or_ge 800 n with h | h
  · rw [if_pos h, min_eq_left]
    rw [div_le_one hn']
    exact_mod_cast h.le
  · rw [if_neg (not_lt.mpr h), min_eq_right]
    rw [le_div_iff₀ hn', one_mul]
    exact_mod_cast h

/-- C6: the detection scale factor is `800 / max(rows, cols)` when the larger
dimension exceeds 800 (so that the downscaled copy's larger dimension is
exactly 800) and `1` otherwise; and corners are mapped back to original-frame
space by dividing each coordinate by the scale factor. -/
theorem detectionScale_spec (r c : ℕ) :
    scaleOf r c = (if 800 < max r c then (800 : ℚ) / ((max r c : ℕ) : ℚ) else 1) ∧
    (800 < max r c →
      max ((r : ℚ) * scaleOf r c) ((c : ℚ) * scaleOf r c) = 800) ∧
    (∀ s ps, rescalePoints s ps = ps.map fun p => ⟨p.x / s, p.y / s⟩) := by
  have main : scaleOf r c =
      (if 800 < max r c then (800 : ℚ) / ((max r c : ℕ) : ℚ) else 1) := by
    rcases Nat.eq_zero_or_pos r with hr | hr
    · subst hr
      rcases Nat.eq_zero_or_pos c with hc | hc
      · subst hc
        simp [scaleOf, jsDivMaxDim]
      · have e2 : jsDivMaxDim c = some (800 / (c : ℚ)) := by
          simp [jsDivMaxDim, hc.ne']
        have emax : max 0 c = c := Nat.zero_max c
        rw [show scaleOf 0 c = min ((800 : ℚ) / (c : ℚ)) 1 by
          unfold scaleOf
          rw [e2, show jsDivMaxDim 0 = none from by simp [jsDivMaxDim]]]
        rw [emax, min_divCap_one c hc]
    · rcases Nat.eq_zero_or_pos c with hc | hc
      · subst hc
        have e1 : jsDivMaxDim r = some (800 / (r : ℚ)) := by
          simp [jsDivMaxDim, hr.ne']
        have emax : max r 0 = r := Nat.max_zero r
        rw [show scaleOf r 0 = min ((800 : ℚ) / (r : ℚ)) 1 by
          unfold scaleOf
          rw [e1, show jsDivMaxDim 0 = none from by simp [jsDivMaxDim]]]
        rw [emax, min_divCap_one r hr]
      · have hr' : (0 : ℚ) < (r : ℚ) := by exact_mod_cast hr
        have hc' : (0 : ℚ) < (c : ℚ) := by exact_mod_cast hc
        have e1 : jsDivMaxDim r = some (800 / (r : ℚ)) := by
          simp [jsDivMaxDim, hr.ne']
        have e2 : jsDivMaxDim c = some (800 / (c : ℚ)) := by
          simp [jsDivMaxDim, hc.ne']
        have hsc : scaleOf r c = min (min ((800 : ℚ) / (r : ℚ)) ((800 : ℚ) / (c : ℚ))) 1 := by
          unfold scaleOf
          rw [e1, e2]
        have hmin : min ((800 : ℚ) / (r : ℚ)) ((800 : ℚ) / (c : ℚ)) =
            (800 : ℚ) / ((max r c : ℕ) : ℚ) := by
          rcases le_total r c with hrc | hrc
          · have : (800 : ℚ) / (c : ℚ) ≤ (800 : ℚ) / (r : ℚ) := by
              rw [div_le_div_iff₀ hc' hr']
              have : (r : ℚ) ≤ (c : ℚ) := by exact_mod_cast hrc
              nlinarith
            rw [min_eq_right this, Nat.max_eq_right hrc]
          · have : (800 : ℚ) / (r : ℚ) ≤ (800 : ℚ) / (c : ℚ) := by
              rw [div_le_div_iff₀ hr' hc']
              have : (c : ℚ) ≤ (r : ℚ) := by exact_mod_cast hrc
              nlinarith
            rw [min_eq_left this, Nat.max_eq_left hrc]
        have hmaxpos : 0 < max r c := lt_of_lt_of_le hr (le_max_left r c)
        rw [hsc, hmin, min_divCap_one (max r c) hmaxpos]
  refine ⟨main, ?_, fun s ps => rfl⟩
  intro hbig
  have hmaxpos : (0 : ℚ) < ((max r c : ℕ) : ℚ) := by
    have : 0 < max r c := lt_trans (by norm_num) hbig
    exact_mod_cast this
  rw [main, if_pos hbig]
  have hcast : ((max r c : ℕ) : ℚ) = max ((r : ℚ)) ((c : ℚ)) := Nat.cast_max r c
  calc max ((r : ℚ) * ((800 : ℚ) / ((max r c : ℕ) : ℚ)))
        ((c : ℚ) * ((800 : ℚ) / ((max r c : ℕ) : ℚ)))
      = max ((r : ℚ)) ((c : ℚ)) * ((800 : ℚ) / ((max r c : ℕ) : ℚ)) := by
        rw [max_mul_of_nonneg _ _ (by positivity)]
    _ = ((max r c : ℕ) : ℚ) * ((800 : ℚ) / ((max r c : ℕ) : ℚ)) := by rw [hcast]
    _ = 800 := by
        rw [mul_comm, div_mul_cancel₀ _ (ne_of_gt hmaxpos)]

/-- Witness for C6: a 1000×500 frame is downscaled by 800/1000 and its larger
dimension becomes exactly 800; a 100×100 frame is not resized. -/
theorem detectionScale_spec_witness :
    scaleOf 1000 500 = (800 : ℚ) / ((1000 : ℕ) : ℚ) ∧ scaleOf 100 100 = 1 ∧
    max ((1000 : ℚ) * scaleOf 1000 500) ((500 : ℚ) * scaleOf 1000 500) = 800 := by
  obtain ⟨h1, h2, -⟩ := detectionScale_spec 1000 500
  obtain ⟨h1', -, -⟩ := detectionScale_spec 100 100
  refine ⟨?_, ?_, ?_⟩
  · rw [h1]
    norm_num
  · rw [h1']
    norm_num
  · have := h2 (by norm_num)
    simpa using this

/-! ## C3: output rectangle size -/

/-- Function `Math.hypot(dx, dy)`, the exact Euclidean norm. -/
noncomputable def hypotR (dx dy : ℚ) : ℝ :=
  Real.sqrt (((dx ^ 2 + dy ^ 2 : ℚ) : ℝ))

/-- Lines 97-99: `maxWidth = Math.max(hypot(br - bl), hypot(tr - tl))`. -/
noncomputable def outputWidth (tl tr br bl : Point) : ℝ :=
  max (hypotR (br.x - bl.x) (br.y - bl.y)) (hypotR (tr.x - tl.x) (tr.y - tl.y))

/-- Lines 101-103: `maxHeight = Math.max(hypot(tr - br), hypot(tl - bl))`. -/
noncomputable def outputHeight (tl tr br bl : Point) : ℝ :=
  max (hypotR (tr.x - br.x) (tr.y - br.y)) (hypotR (tl.x - bl.x) (tl.y - bl.y))

/-- Modelled from the spec's words: the Euclidean distance between two points. -/
noncomputable def euclideanDist (p q : Point) : ℝ :=
  Real.sqrt ((((p.x - q.x) ^ 2 + (p.y - q.y) ^ 2 : ℚ) : ℝ))

/-- Evaluation helper for `hypotR` at an exact square. -/
theorem hypotR_eval (dx dy v : ℚ) (hv : 0 ≤ v) (h : dx ^ 2 + dy ^ 2 = v ^ 2) :
    hypotR dx dy = (v : ℝ) := by
  unfold hypotR
  rw [h]
  push_cast
  exact Real.sqrt_sq (by exact_mod_cast hv)

/-- C3: the computed output width is the maximum of the Euclidean distances
BottomRight↔BottomLeft and TopRight↔TopLeft, the computed output height is the
maximum of the Euclidean distances TopRight↔BottomRight and TopLeft↔BottomLeft,
and on the 600×400 axis-aligned scenario corners (200,300), (800,300),
(800,700), (200,700) the ordering is TL, TR, BR, BL as given and the computed
output size is exactly 600 × 400. -/
theorem outputSize_spec (tl tr br bl : Point) :
    outputWidth tl tr br bl = max (euclideanDist br bl) (euclideanDist tr tl) ∧
    outputHeight tl tr br bl = max (euclideanDist tr br) (euclideanDist tl bl) ∧
    orderPoints [⟨200, 300⟩, ⟨800, 300⟩, ⟨800, 700⟩, ⟨200, 700⟩] =
      [⟨200, 300⟩, ⟨800, 300⟩, ⟨800, 700⟩, ⟨200, 700⟩] ∧
    outputWidth ⟨200, 300⟩ ⟨800, 300⟩ ⟨800, 700⟩ ⟨200, 700⟩ = 600 ∧
    outputHeight ⟨200, 300⟩ ⟨800, 300⟩ ⟨800, 700⟩ ⟨200, 700⟩ = 400 := by
  have hw : hypotR 600 0 = ((600 : ℚ) : ℝ) := hypotR_eval 600 0 600 (by norm_num) (by norm_num)
  have hh : hypotR 0 (-400) = ((400 : ℚ) : ℝ) := hypotR_eval 0 (-400) 400 (by norm_num) (by norm_num)
  refine ⟨rfl, rfl, ?_, ?_, ?_⟩
  · norm_num [orderPoints, bySum, byDiff, sumKey, diffKey, List.getD]
  · show max (hypotR (800 - 200) (700 - 700)) (hypotR (800 - 200) (300 - 300)) = 600
    norm_num [hw]
  · show max (hypotR (800 - 800) (300 - 700)) (hypotR (200 - 200) (300 - 700)) = 400
    norm_num [hh]

/-! ## C5, C7, C8, C9: exit paths of `processDocumentScan` -/

/-- Helper `finishUp` repaints nothing: the state it returns carries the canvas image
it was given. -/
theorem finishUp_st (e : Engine) (cimg : Img) (live : List Buf)
    (r : Except Unit String) (st : St) (h : finishUp e cimg live = (r, st)) :
    st.canvas = cimg := by
  unfold finishUp at h
  split at h <;> (injection h with h1 h2; rw [← h2])

/-- A successful `finishUp` comes from a successful encoding and has freed the
eight common buffers. -/
theorem finishUp_ok (e : Engine) (cimg : Img) (live : List Buf) (s : String)
    (st : St) (h : finishUp e cimg live = (.ok s, st)) :
    st.canvas = cimg ∧ st.live = freeCommon live ∧ e.toDataURL cimg = .ok s := by
  unfold finishUp at h
  split at h
  · rename_i s' heq
    injection h with h1 h2
    injection h1 with h1
    subst h1
    rw [← h2]
    exact ⟨rfl, rfl, heq⟩
  · injection h with h1 h2
    exact absurd h1 (by simp)

/-- The result of the eight common deletions on the fallback path. -/
theorem freeCommon_fallback :
    freeCommon [Buf.hierarchy, Buf.contours, Buf.edges, Buf.blurred, Buf.gray,
      Buf.smallSrc, Buf.dst, Buf.src] = [] := by
  decide

/-- Shared fallback-path computation: engine loaded, every step succeeds, no
quadrilateral survives filtering. -/
theorem fallback_core (e : Engine) (canvas sm g b ed : Img) (cs : List Contour)
    (s : String)
    (h1 : smallStep e canvas = .ok sm) (h2 : e.cvtColorGray sm = .ok g)
    (h3 : e.gaussianBlur g = .ok b) (h4 : e.canny b = .ok ed)
    (h5 : e.findContours ed = .ok cs)
    (h6 : findMaxQuad e.isContourConvex cs = none)
    (h7 : e.toDataURL canvas = .ok s) :
    processDocumentScan e true canvas = (some s, ⟨canvas, []⟩) := by
  have ht : tryBody e canvas = (.ok s, ⟨canvas, []⟩) := by
    simp only [tryBody, h1, h2, h3, h4, h5, h6]
    unfold finishUp
    rw [h7, freeCommon_fallback]
  simp only [processDocumentScan, if_pos, ht]

/-- C5: when the engine is loaded, every pipeline step succeeds and no
quadrilateral survives filtering, `processDocumentScan` leaves the canvas
equal to the input frame, frees every tracked buffer, and returns the JPEG
encoding of that unchanged frame. -/
theorem processDocumentScan_fallback (e : Engine) (canvas sm g b ed : Img)
    (cs : List Contour) (s : String)
    (h1 : smallStep e canvas = .ok sm) (h2 : e.cvtColorGray sm = .ok g)
    (h3 : e.gaussianBlur g = .ok b) (h4 : e.canny b = .ok ed)
    (h5 : e.findContours ed = .ok cs)
    (h6 : findMaxQuad e.isContourConvex cs = none)
    (h7 : e.toDataURL canvas = .ok s) :
    processDocumentScan e true canvas = (some s, ⟨canvas, []⟩) :=
  fallback_core e canvas sm g b ed cs s h1 h2 h3 h4 h5 h6 h7

/-- The encoder output used by the concrete witness engines. -/
def jpegOut : String := "jpeg"

/-- A fully successful engine: every oracle returns a value; no contour is
found, so any call falls back to the unmodified frame. -/
def okEngine : Engine where
  resizeArea := fun _ _ _ => .ok ⟨0, 0, 0⟩
  cvtColorGray := fun _ => .ok ⟨10, 10, 1⟩
  gaussianBlur := fun _ => .ok ⟨10, 10, 2⟩
  canny := fun _ => .ok ⟨10, 10, 3⟩
  findContours := fun _ => .ok []
  isContourConvex := fun _ => true
  mathHypot := fun _ _ => 0
  getPerspectiveTransform := fun _ _ => .ok ⟨0, 0, 4⟩
  warpPerspective := fun _ _ _ _ => .ok ⟨0, 0, 5⟩
  toDataURL := fun _ => .ok jpegOut

/-- Witness for C5 on a frame with no detectable contour. -/
theorem processDocumentScan_fallback_witness :
    processDocumentScan okEngine true ⟨0, 0, 7⟩ = (some jpegOut, ⟨⟨0, 0, 7⟩, []⟩) :=
  processDocumentScan_fallback okEngine ⟨0, 0, 7⟩ ⟨0, 0, 7⟩ ⟨10, 10, 1⟩
    ⟨10, 10, 2⟩ ⟨10, 10, 3⟩ [] jpegOut rfl rfl rfl rfl rfl rfl rfl

/-- C7: `processDocumentScan` returns `null` when the engine is unavailable;
it returns `null` whenever the `try` body throws and the string the body
produced whenever it does not (so the call always completes with a string or
`null` and never propagates an exception); and "no document found" — every
step succeeding with no surviving quadrilateral — yields a string result, not
an exception or `null`. -/
theorem processDocumentScan_error_handling (e : Engine) (canvas : Img) :
    processDocumentScan e false canvas = (none, ⟨canvas, []⟩) ∧
    (∀ u st, tryBody e canvas = (.error u, st) →
      processDocumentScan e true canvas = (none, st)) ∧
    (∀ s st, tryBody e canvas = (.ok s, st) →
      processDocumentScan e true canvas = (some s, st)) ∧
    ((processDocumentScan e true canvas).1 = none ∨
      ∃ s, (processDocumentScan e true canvas).1 = some s) ∧
    (∀ sm g b ed cs s, smallStep e canvas = .ok sm → e.cvtColorGray sm = .ok g →
      e.gaussianBlur g = .ok b → e.canny b = .ok ed →
      e.findContours ed = .ok cs → findMaxQuad e.isContourConvex cs = none →
      e.toDataURL canvas = .ok s →
      processDocumentScan e true canvas = (some s, ⟨canvas, []⟩)) := by
  refine ⟨rfl, ?_, ?_, ?_, ?_⟩
  · intro u st h
    simp only [processDocumentScan, if_pos, h]
  · intro s st h
    simp only [processDocumentScan, if_pos, h]
  · rcases h : (processDocumentScan e true canvas).1 with _ | s
    · exact Or.inl rfl
    · exact Or.inr ⟨s, rfl⟩
  · intro sm g b ed cs s h1 h2 h3 h4 h5 h6 h7
    exact fallback_core e canvas sm g b ed cs s h1 h2 h3 h4 h5 h6 h7

/-- Witness for C7: engine unavailable yields `null`; a successful fallback
run yields a string. -/
theorem processDocumentScan_error_handling_witness :
    processDocumentScan okEngine false ⟨0, 0, 7⟩ = (none, ⟨⟨0, 0, 7⟩, []⟩) ∧
    processDocumentScan okEngine true ⟨0, 0, 7⟩ = (some jpegOut, ⟨⟨0, 0, 7⟩, []⟩) := by
  obtain ⟨hoff, -, -, -, hfb⟩ := processDocumentScan_error_handling okEngine ⟨0, 0, 7⟩
  exact ⟨hoff, hfb ⟨0, 0, 7⟩ ⟨10, 10, 1⟩ ⟨10, 10, 2⟩ ⟨10, 10, 3⟩ [] jpegOut
    rfl rfl rfl rfl rfl rfl rfl⟩

/-- On every exit of the `try` body the canvas is either untouched or holds a
complete warp output. -/
theorem tryBody_canvas (e : Engine) (canvas : Img) (r : Except Unit String)
    (st : St) (h : tryBody e canvas = (r, st)) :
    st.canvas = canvas ∨
      ∃ m mw mh w, e.warpPerspective canvas m mw mh = .ok w ∧ st.canvas = w := by
  simp only [tryBody] at h
  split at h
  · injection h with h1 h2; exact Or.inl (by rw [← h2])
  · split at h
    · injection h with h1 h2; exact Or.inl (by rw [← h2])
    · split at h
      · injection h with h1 h2; exact Or.inl (by rw [← h2])
      · split at h
        · injection h with h1 h2; exact Or.inl (by rw [← h2])
        · split at h
          · injection h with h1 h2; exact Or.inl (by rw [← h2])
          · split at h
            · split at h
              · split at h
                · injection h with h1 h2; exact Or.inl (by rw [← h2])
                · split at h
                  · injection h with h1 h2; exact Or.inl (by rw [← h2])
                  · rename_i warped hwarp
                    exact Or.inr ⟨_, _, _, warped, hwarp, finishUp_st _ _ _ _ _ h⟩
              · injection h with h1 h2; exact Or.inl (by rw [← h2])
            · exact Or.inl (finishUp_st _ _ _ _ _ h)

/-- C8 (amended): whenever `processDocumentScan` returns the `null` failure
result, the canvas is unchanged unless a document was detected and the fully
warped output had already been painted onto the canvas before a later step
(cleanup or JPEG encoding) threw; in that case the canvas holds a complete
warp output — never a partially applied crop. -/
theorem processDocumentScan_null_canvas (e : Engine) (cvLoaded : Bool)
    (canvas : Img) (st : St)
    (h : processDocumentScan e cvLoaded canvas = (none, st)) :
    st.canvas = canvas ∨
      ∃ m mw mh w, e.warpPerspective canvas m mw mh = .ok w ∧ st.canvas = w := by
  unfold processDocumentScan at h
  split at h
  · split at h
    · injection h with h1 h2
      exact absurd h1 (by simp)
    · rename_i u st1 heq
      injection h with h1 h2
      exact h2 ▸ tryBody_canvas e canvas (.error u) st1 heq
  · injection h with h1 h2
    exact Or.inl (by rw [← h2])

/-- An engine that detects one convex quadrilateral and whose JPEG encoder
throws; every other operation succeeds. -/
def encodeFailEngine : Engine where
  resizeArea := fun _ _ _ => .ok ⟨0, 0, 0⟩
  cvtColorGray := fun _ => .ok ⟨10, 10, 1⟩
  gaussianBlur := fun _ => .ok ⟨10, 10, 2⟩
  canny := fun _ => .ok ⟨10, 10, 3⟩
  findContours := fun _ =>
    .ok [⟨6000, 100, fun _ => [⟨0, 0⟩, ⟨10, 0⟩, ⟨10, 10⟩, ⟨0, 10⟩]⟩]
  isContourConvex := fun _ => true
  mathHypot := fun _ _ => 20
  getPerspectiveTransform := fun _ _ => .ok ⟨1, 1, 8⟩
  warpPerspective := fun _ _ _ _ => .ok ⟨50, 50, 99⟩
  toDataURL := fun _ => .error ()

/-- Counterexample to C8 as stated: the encoder throws after the warped image
was painted onto the canvas, so the call returns `null` with a modified
canvas. -/
theorem processDocumentScan_null_canvas_counterexample :
    processDocumentScan encodeFailEngine true ⟨0, 0, 9⟩ =
      (none, ⟨⟨50, 50, 99⟩, []⟩) ∧ (⟨50, 50, 99⟩ : Img) ≠ (⟨0, 0, 9⟩ : Img) := by
  have hres : rescalePoints (scaleOf 0 0)
      [⟨0, 0⟩, ⟨10, 0⟩, ⟨10, 10⟩, ⟨0, 10⟩] =
      [⟨0, 0⟩, ⟨10, 0⟩, ⟨10, 10⟩, ⟨0, 10⟩] := by
    norm_num [rescalePoints, scaleOf, jsDivMaxDim]
  have hord : orderPoints [⟨0, 0⟩, ⟨10, 0⟩, ⟨10, 10⟩, ⟨0, 10⟩] =
      [⟨0, 0⟩, ⟨10, 0⟩, ⟨10, 10⟩, ⟨0, 10⟩] := by
    norm_num [orderPoints, bySum, byDiff, sumKey, diffKey, List.getD]
  have hfmq : findMaxQuad encodeFailEngine.isContourConvex
      [⟨6000, 100, fun _ => [⟨0, 0⟩, ⟨10, 0⟩, ⟨10, 10⟩, ⟨0, 10⟩]⟩] =
      some [⟨0, 0⟩, ⟨10, 0⟩, ⟨10, 10⟩, ⟨0, 10⟩] := by
    norm_num [findMaxQuad, codeStep, encodeFailEngine]
  have ht : tryBody encodeFailEngine ⟨0, 0, 9⟩ = (.error (), ⟨⟨50, 50, 99⟩, []⟩) := by
    have hsm : smallStep encodeFailEngine ⟨0, 0, 9⟩ = .ok ⟨0, 0, 9⟩ := rfl
    have hcv : encodeFailEngine.cvtColorGray ⟨0, 0, 9⟩ = .ok ⟨10, 10, 1⟩ := rfl
    have hgb : encodeFailEngine.gaussianBlur ⟨10, 10, 1⟩ = .ok ⟨10, 10, 2⟩ := rfl
    have hcn : encodeFailEngine.canny ⟨10, 10, 2⟩ = .ok ⟨10, 10, 3⟩ := rfl
    have hfc : encodeFailEngine.findContours ⟨10, 10, 3⟩ =
        .ok [⟨6000, 100, fun _ => [⟨0, 0⟩, ⟨10, 0⟩, ⟨10, 10⟩, ⟨0, 10⟩]⟩] := rfl
    simp only [tryBody, hsm, hcv, hgb, hcn, hfc, hfmq, hres, hord]
    simp [finishUp, freeCommon, encodeFailEngine, List.erase_cons]
  refine ⟨?_, by simp⟩
  simp only [processDocumentScan, if_pos, ht]

/-- Witness for the amended C8: an engine whose encoder throws on the
fallback path returns `null` with the canvas untouched. -/
def fallbackFailEngine : Engine where
  resizeArea := fun _ _ _ => .ok ⟨0, 0, 0⟩
  cvtColorGray := fun _ => .ok ⟨10, 10, 1⟩
  gaussianBlur := fun _ => .ok ⟨10, 10, 2⟩
  canny := fun _ => .ok ⟨10, 10, 3⟩
  findContours := fun _ => .ok []
  isContourConvex := fun _ => true
  mathHypot := fun _ _ => 0
  getPerspectiveTransform := fun _ _ => .ok ⟨0, 0, 4⟩
  warpPerspective := fun _ _ _ _ => .ok ⟨0, 0, 5⟩
  toDataURL := fun _ => .error ()

/-- Witness for the amended C8 at a concrete failing run. -/
theorem processDocumentScan_null_canvas_witness :
    (⟨(⟨0, 0, 7⟩ : Img), []⟩ : St).canvas = ⟨0, 0, 7⟩ ∨
    ∃ m mw mh w, fallbackFailEngine.warpPerspective ⟨0, 0, 7⟩ m mw mh = .ok w ∧
      (⟨(⟨0, 0, 7⟩ : Img), []⟩ : St).canvas = w :=
  processDocumentScan_null_canvas fallbackFailEngine true ⟨0, 0, 7⟩
    ⟨⟨0, 0, 7⟩, []⟩ rfl

/-- A successful `try` body ends with the live-buffer list empty. -/
theorem tryBody_ok_live (e : Engine) (canvas : Img) (s : String) (st : St)
    (h : tryBody e canvas = (.ok s, st)) : st.live = [] := by
  simp only [tryBody] at h
  split at h
  · injection h with h1 h2; exact absurd h1 (by simp)
  · split at h
    · injection h with h1 h2; exact absurd h1 (by simp)
    · split at h
      · injection h with h1 h2; exact absurd h1 (by simp)
      · split at h
        · injection h with h1 h2; exact absurd h1 (by simp)
        · split at h
          · injection h with h1 h2; exact absurd h1 (by simp)
          · split at h
            · split at h
              · split at h
                · injection h with h1 h2; exact absurd h1 (by simp)
                · split at h
                  · injection h with h1 h2; exact absurd h1 (by simp)
                  · obtain ⟨-, hlive, -⟩ := finishUp_ok _ _ _ _ _ h
                    rw [hlive]
                    decide
              · injection h with h1 h2; exact absurd h1 (by simp)
            · obtain ⟨-, hlive, -⟩ := finishUp_ok _ _ _ _ _ h
              rw [hlive]
              decide

/-- C9 (amended): on the two normal exits — successful rectification and the
no-document fallback, i.e. whenever a string is returned — every tracked
intermediate buffer has been released before the call returns; on the
caught-exception exit the buffers allocated before the throw are not
released. -/
theorem processDocumentScan_release_on_success (e : Engine) (canvas : Img)
    (s : String) (st : St)
    (h : processDocumentScan e true canvas = (some s, st)) : st.live = [] := by
  unfold processDocumentScan at h
  rw [if_pos rfl] at h
  split at h
  · rename_i s1 st1 heq
    injection h with h1 h2
    exact h2 ▸ tryBody_ok_live e canvas s1 st1 heq
  · injection h with h1 h2
    exact absurd h1 (by simp)

/-- An engine whose Canny edge detector throws; every other operation
succeeds. -/
def cannyFailEngine : Engine where
  resizeArea := fun _ _ _ => .ok ⟨0, 0, 0⟩
  cvtColorGray := fun _ => .ok ⟨10, 10, 1⟩
  gaussianBlur := fun _ => .ok ⟨10, 10, 2⟩
  canny := fun _ => .error ()
  findContours := fun _ => .ok []
  isContourConvex := fun _ => true
  mathHypot := fun _ _ => 0
  getPerspectiveTransform := fun _ _ => .ok ⟨0, 0, 4⟩
  warpPerspective := fun _ _ _ _ => .ok ⟨0, 0, 5⟩
  toDataURL := fun _ => .ok jpegOut

/-- Counterexample to C9 as stated: when Canny throws, the exception exit is
taken and the six buffers already allocated (src, dst, smallSrc, gray,
blurred, edges) are never released. -/
theorem bufferRelease_counterexample :
    processDocumentScan cannyFailEngine true ⟨0, 0, 7⟩ =
      (none, ⟨⟨0, 0, 7⟩,
        [Buf.edges, Buf.blurred, Buf.gray, Buf.smallSrc, Buf.dst, Buf.src]⟩) ∧
    ([Buf.edges, Buf.blurred, Buf.gray, Buf.smallSrc, Buf.dst, Buf.src] :
      List Buf) ≠ [] :=
  ⟨rfl, by simp⟩

/-- Witness for the amended C9 at a concrete successful run. -/
theorem processDocumentScan_release_on_success_witness :
    (⟨(⟨0, 0, 7⟩ : Img), []⟩ : St).live = [] :=
  processDocumentScan_release_on_success okEngine ⟨0, 0, 7⟩ jpegOut
    ⟨⟨0, 0, 7⟩, []⟩ rfl

end DocScan
